import Mathlib

/-!
Verification of the paginated-aggregation engine of the Stars Repo Extractor.

This file gives a shallow embedding, in Lean 4, of the core logic of the
repository: the Link-header parsers (`parseLinkHeader` from both page
variants and `parseNextFromLink` from the export route), the CSV serializer
(`csvEscape`, `toCSV`, `toCSVFromRepos`), the item normalizer of the
`/api/starred` GET route, and the page-aggregation loop of the `/api/export`
POST route.  JavaScript strings are modelled as `List Char`; JavaScript
numbers are modelled by `JsNum` (NaN, signed infinities, or an exact
rational — the page numbers exercised here are small integers, where the
float64/rational distinction is irrelevant); JavaScript objects are modelled
as association lists (`JVal`).  Platform builtins (`String.prototype.trim`,
`Number(...)`, `new URL(...)`) are modelled on the fragment of their
behaviour relevant to the repository: ASCII whitespace trimming, the decimal
and `Infinity` forms of the numeric-string grammar, and scheme/query
extraction without percent-decoding.
-/

/-! ## JavaScript string primitives -/

/-- Whitespace test used by `String.prototype.trim` (ASCII fragment). -/
def isJsWs (c : Char) : Bool :=
  c == ' ' || c == '\t' || c == '\n' || c == '\r' || c == '\x0b' || c == '\x0c'

/-- Model of `s.trim()` on character lists. -/
def jsTrim (l : List Char) : List Char :=
  ((l.dropWhile isJsWs).reverse.dropWhile isJsWs).reverse

/-- Model of `s.split(sep)` for a one-character separator: `"".split(",")`
is `[""]`, and separators at the ends produce empty pieces, as in
JavaScript. -/
def splitOnChar (sep : Char) : List Char → List (List Char)
  | [] => [[]]
  | c :: rest =>
    match splitOnChar sep rest with
    | [] => if c == sep then [[], []] else [[c]]
    | h :: t => if c == sep then [] :: h :: t else (c :: h) :: t

/-! ## JavaScript numbers and `Number(string)` -/

/-- A JavaScript number as observed by the parsing code: NaN, a signed
infinity, or a finite value (modelled exactly as a rational). -/
inductive JsNum where
  | nan : JsNum
  | inf (neg : Bool) : JsNum
  | fin (q : ℚ) : JsNum
deriving DecidableEq

/-- Rational with numerator `i` and denominator 1, in normal form. -/
def ratInt (i : Int) : ℚ := ⟨i, 1, Nat.one_ne_zero, Nat.coprime_one_right _⟩

/-- Truthiness of a JavaScript number: everything except `0`, `-0` and
`NaN` is truthy. -/
def JsNum.truthy : JsNum → Bool
  | .nan => false
  | .inf _ => true
  | .fin q => q != 0

/-- The value of a digit run, e.g. `['4','2'] ↦ 42`. -/
def digitsToNat (l : List Char) : Nat :=
  l.foldl (fun a c => a * 10 + (c.toNat - 48)) 0

/-- Split a leading run of ASCII digits from the rest. -/
def spanDigits (l : List Char) : List Char × List Char :=
  (l.takeWhile Char.isDigit, l.dropWhile Char.isDigit)

/-- Value of `intPart.fracPart` as a rational. -/
def decimalVal (ip fp : List Char) : ℚ :=
  if fp.isEmpty then ratInt (Int.ofNat (digitsToNat ip))
  else ratInt (Int.ofNat (digitsToNat ip)) + mkRat (Int.ofNat (digitsToNat fp)) (10 ^ fp.length)

/-- Parse the unsigned decimal body of a JavaScript numeric string:
`digits [. digits] [e|E [sign] digits]`, requiring at least one digit in
the integer or fractional part and a nonempty exponent when `e` appears. -/
def parseDecBody (body : List Char) : Option ℚ :=
  let (ip, r1) := spanDigits body
  let (fp, r2) :=
    match r1 with
    | '.' :: r => spanDigits r
    | _ => ([], r1)
  if ip.isEmpty && fp.isEmpty then none
  else
    match r2 with
    | [] => some (decimalVal ip fp)
    | 'e' :: r3 =>
      match parseExpPart r3 with
      | some e => some (applyExp (decimalVal ip fp) e)
      | none => none
    | 'E' :: r3 =>
      match parseExpPart r3 with
      | some e => some (applyExp (decimalVal ip fp) e)
      | none => none
    | _ => none
where
  /-- Parse `[sign] digits` (the exponent), returning the signed exponent. -/
  parseExpPart (r : List Char) : Option Int :=
    let (eneg, r4) :=
      match r with
      | '+' :: rr => (false, rr)
      | '-' :: rr => (true, rr)
      | rr => (false, rr)
    let (ed, r5) := spanDigits r4
    if ed.isEmpty || !r5.isEmpty then none
    else some (if eneg then -(Int.ofNat (digitsToNat ed)) else Int.ofNat (digitsToNat ed))
  /-- Scale a value by a power of ten. -/
  applyExp (v : ℚ) (e : Int) : ℚ :=
    if e < 0 then v / (10 : ℚ) ^ e.natAbs else v * (10 : ℚ) ^ e.natAbs

/-- Model of `Number(s)` for a string `s` (decimal and `Infinity` fragment
of the JavaScript StringNumericLiteral grammar; hex/octal/binary literals,
which never occur in a `page` query parameter, are not modelled and fall to
`NaN`).  The whole string is trimmed; the empty string converts to `0`. -/
def jsNumber (l : List Char) : JsNum :=
  let t := jsTrim l
  if t.isEmpty then .fin (ratInt 0)
  else
    let (neg, body) :=
      match t with
      | '+' :: r => (false, r)
      | '-' :: r => (true, r)
      | r => (false, r)
    if body = ['I', 'n', 'f', 'i', 'n', 'i', 't', 'y'] then .inf neg
    else
      match parseDecBody body with
      | some q => .fin (if neg then -q else q)
      | none => .nan

/-! ## The URL model: `new URL(s)` and `searchParams.get` -/

/-- The part of a parsed URL the repository observes: its scheme and its
query parameters in order. -/
structure JsUrl where
  scheme : List Char
  query : List (List Char × List Char)
deriving DecidableEq

/-- A character allowed in a URL scheme after the first. -/
def isSchemeChar (c : Char) : Bool :=
  c.isAlpha || c.isDigit || c == '+' || c == '-' || c == '.'

/-- Split a query segment `k=v` at the first `=`; a segment with no `=` is
a key with empty value, as for `URLSearchParams`. -/
def querySegToPair (seg : List Char) : List Char × List Char :=
  let k := seg.takeWhile (fun c => c != '=')
  match seg.dropWhile (fun c => c != '=') with
  | [] => (k, [])
  | _ :: v => (k, v)

/-- Extract the query pairs of the part of a URL after the scheme: the text
between the first `?` and a following `#`, split on `&`.  Empty segments
are skipped, as `URLSearchParams` does. -/
def queryPairs (rest : List Char) : List (List Char × List Char) :=
  let beforeHash := rest.takeWhile (fun c => c != '#')
  match beforeHash.dropWhile (fun c => c != '?') with
  | [] => []
  | _ :: qs => ((splitOnChar '&' qs).filter (fun seg => !seg.isEmpty)).map querySegToPair

/-- Model of `new URL(s)`: succeeds when the string begins with a valid
scheme followed by `:` (the WHATWG host checks for special schemes are not
modelled; the strings exercised here are ordinary absolute URLs), and
records the scheme and the query parameters.  Percent-decoding is not
modelled.  Failure models the constructor throwing. -/
def parseUrl (l : List Char) : Option JsUrl :=
  let sch := l.takeWhile (fun c => c != ':')
  match l.dropWhile (fun c => c != ':') with
  | [] => none
  | _ :: rest =>
    match sch with
    | [] => none
    | c :: cs =>
      if c.isAlpha && cs.all isSchemeChar then
        some ⟨sch, queryPairs rest⟩
      else none

/-- Model of `url.searchParams.get(key)`: the first value recorded for the
key, or `none` when the key is absent. -/
def searchGet (u : JsUrl) (key : List Char) : Option (List Char) :=
  (u.query.find? (fun kv => kv.1 = key)).map (fun kv => kv.2)

/-! ## The `rel="..."` regular expression -/

/-- The text before the last `"` of `l`, when `l` contains a `"`. -/
def lastQuoteSplit (l : List Char) : Option (List Char) :=
  match l.reverse.dropWhile (fun c => c != '"') with
  | [] => none
  | _ :: rest => some rest.reverse

/-- Model of `s.match(/rel="(.*)"/)`, returning the capture group: scan for
the first occurrence of the literal `rel="`; the greedy dot (which does not
cross line terminators) then captures up to the last `"` on the same line;
if that line holds no further `"`, the scan resumes after the occurrence. -/
def relCapture : List Char → Option (List Char)
  | 'r' :: 'e' :: 'l' :: '=' :: '"' :: rest =>
    let seg := rest.takeWhile (fun c => c != '\n' && c != '\r')
    (match lastQuoteSplit seg with
     | some cap => some cap
     | none => relCapture rest)
  | _ :: rest => relCapture rest
  | [] => none

/-! ## `parseNextFromLink` (export route) -/

/-- The contribution of one comma-separated Link-header entry to
`parseNextFromLink`: the page number of the entry when it has at least two
semicolon sections, its rel capture is exactly `next`, its URL parses, and
its `page` query parameter is a truthy, finite number. -/
def nextOfEntry (p : List Char) : Option ℚ :=
  match splitOnChar ';' p with
  | s0 :: s1 :: _ =>
    let urlPart := (jsTrim s0).filter (fun c => c != '<' && c != '>')
    match relCapture (jsTrim s1) with
    | none => none
    | some rel =>
      if rel = "next".data then
        match parseUrl urlPart with
        | none => none
        | some url =>
          match searchGet url "page".data with
          | none => none
          | some [] => none
          | some s =>
            match jsNumber s with
            | .fin q => if q != 0 then some q else none
            | _ => none
      else none
  | _ => none

/-- First entry that yields a next page, scanning left to right. -/
def firstNext : List (List Char) → Option ℚ
  | [] => none
  | p :: rest =>
    match nextOfEntry p with
    | some q => some q
    | none => firstNext rest

/-- Model of `parseNextFromLink` from the export route: `null` and the
empty string are falsy and yield no next page; otherwise the header is
split on commas and the first entry with rel `next` and a truthy finite
`page` number supplies the result. -/
def parseNextFromLink (link : Option String) : Option ℚ :=
  match link with
  | none => none
  | some s => if s.data.isEmpty then none else firstNext (splitOnChar ',' s.data)

/-! ## `parseLinkHeader` (both page variants) -/

/-- The cursor built by `parseLinkHeader`: a JavaScript object, modelled as
a map from property names to the numbers stored there.  The TypeScript
annotation `PageInfo` constrains nothing at runtime, so any captured rel
name can appear as a key. -/
def Cursor := String → Option JsNum

/-- The empty cursor `{}`. -/
def emptyCursor : Cursor := fun _ => none

/-- Model of `info[rel] = pageNum`. -/
def updCursor (m : Cursor) (k : String) (v : JsNum) : Cursor :=
  fun key => if key = k then some v else m key

/-- The contribution of one comma-separated entry to `parseLinkHeader`: the
captured rel name (any string) and page number, when the entry has at least
two semicolon sections, its URL parses (a throwing URL constructor drops
the entry), its rel pattern matches, and its `page` parameter is a truthy
number.  No finiteness or positivity check is made. -/
def contribEntry (p : List Char) : Option (String × JsNum) :=
  match splitOnChar ';' p with
  | s0 :: s1 :: _ =>
    let urlPart := (jsTrim s0).filter (fun c => c != '<' && c != '>')
    let relM := relCapture (jsTrim s1)
    match parseUrl urlPart with
    | none => none
    | some url =>
      let pageNum : Option JsNum :=
        match searchGet url "page".data with
        | none => none
        | some [] => none
        | some s => some (jsNumber s)
      match relM, pageNum with
      | some rel, some n => if n.truthy then some (String.mk rel, n) else none
      | _, _ => none
  | _ => none

/-- One loop iteration of `parseLinkHeader`, folding an entry into the
cursor. -/
def stepEntry (m : Cursor) (p : List Char) : Cursor :=
  match contribEntry p with
  | none => m
  | some (k, v) => updCursor m k v

/-- Model of `parseLinkHeader` from both page variants: `null` and the
empty string yield the empty cursor; otherwise the header splits on commas
and each entry's contribution is assigned into the cursor in order, later
entries overwriting earlier ones with the same rel name. -/
def parseLinkHeader (link : Option String) : Cursor :=
  match link with
  | none => emptyCursor
  | some s =>
    if s.data.isEmpty then emptyCursor
    else (splitOnChar ',' s.data).foldl stepEntry emptyCursor

/-! ## JavaScript values: objects, arrays, scalars -/

/-- A JSON-ish JavaScript value as handled by the routes: `undefined` is
included because property access on a missing key yields it and the
serializers treat it specially. -/
inductive JVal where
  | jnull : JVal
  | jundefined : JVal
  | jbool (b : Bool) : JVal
  | jnum (q : ℚ) : JVal
  | jstr (s : String) : JVal
  | jarr (elems : List JVal) : JVal
  | jobj (fields : List (String × JVal)) : JVal

/-- Model of (optionally chained) property access `v?.k`: a missing key, or
a receiver that is not an object, yields `undefined`. -/
def getField (v : JVal) (k : String) : JVal :=
  match v with
  | .jobj fields =>
    match fields.find? (fun kv => kv.1 = k) with
    | some kv => kv.2
    | none => .jundefined
  | _ => .jundefined

/-- Model of the nullish coalescing `a ?? b`. -/
def coalesce (a b : JVal) : JVal :=
  match a with
  | .jnull => b
  | .jundefined => b
  | v => v

/-! ## CSV serialization -/

/-- Model of `Array.prototype.join(sep)` on strings. -/
def joinStrings (sep : String) : List String → String
  | [] => ""
  | [x] => x
  | x :: y :: rest => x ++ sep ++ joinStrings sep (y :: rest)

/-- Collapse every line break — `\r\n`, lone `\r`, lone `\n` — to a single
space, as `s.replace(/\r?\n|\r/g, " ")` does (the alternation prefers the
two-character `\r\n` at each position). -/
def collapseNewlines : List Char → List Char
  | [] => []
  | '\r' :: '\n' :: rest => ' ' :: collapseNewlines rest
  | '\r' :: rest => ' ' :: collapseNewlines rest
  | '\n' :: rest => ' ' :: collapseNewlines rest
  | c :: rest => c :: collapseNewlines rest

/-- Double every `"`, as `s.replace(/"/g, '""')` does. -/
def doubleQuotes : List Char → List Char
  | [] => []
  | '"' :: rest => '"' :: '"' :: doubleQuotes rest
  | c :: rest => c :: doubleQuotes rest

/-- The string body of `csvEscape` past the null check: collapse line
breaks to spaces, then wrap in double quotes — doubling inner quotes —
when the result contains a `"`, a `,`, or a `\n` (the last is impossible
after collapsing, mirroring the dead test in the source). -/
def csvEscapeStr (s : String) : String :=
  let t := collapseNewlines s.data
  if t.contains '"' || t.contains ',' || t.contains '\n' then
    String.mk ('"' :: (doubleQuotes t ++ ['"']))
  else String.mk t

/-- Model of `String(val)` for the scalar values that reach `csvEscape`.
Composite stringification (`String` of a nonempty array joins elements)
is not modelled beyond the object case; the routes only pass scalars. -/
def jsToString (v : JVal) : String :=
  match v with
  | .jnull => "null"
  | .jundefined => "undefined"
  | .jbool b => if b then "true" else "false"
  | .jnum q => if q.den == 1 then toString q.num else toString q
  | .jstr s => s
  | .jarr _ => ""
  | .jobj _ => "[object Object]"

/-- Model of `csvEscape` from the export route: `null` and `undefined`
serialize to the empty string; any other value is stringified, line breaks
collapsed, and quoted when needed. -/
def csvEscape (val : JVal) : String :=
  match val with
  | .jnull => ""
  | .jundefined => ""
  | v => csvEscapeStr (jsToString v)

/-- One data row of `toCSV`, reading the raw GitHub record's fields with
the same fallbacks as the source. -/
def toCSVRow (r : JVal) : String :=
  joinStrings ","
    [ csvEscape (getField r "id"),
      csvEscape (coalesce (getField r "full_name") (coalesce (getField r "name") (.jstr ""))),
      csvEscape (coalesce (getField r "html_url") (.jstr "")),
      csvEscape (coalesce (getField r "description") (.jstr "")),
      csvEscape (coalesce (getField r "stargazers_count") (.jstr "")),
      csvEscape (coalesce (getField r "language") (.jstr "")),
      csvEscape (coalesce (getField (getField r "owner") "login") (.jstr "")),
      csvEscape (coalesce (getField (getField r "owner") "html_url") (.jstr "")) ]

/-- Model of `toCSV` from the export route: a fixed header row of raw
GitHub field names, one row per record, rows joined by `\n` with a final
trailing newline. -/
def toCSV (all : List JVal) : String :=
  let headers := ["id", "full_name", "html_url", "description",
                  "stargazers_count", "language", "owner_login", "owner_html_url"]
  let lines := joinStrings "," headers :: all.map toCSVRow
  joinStrings "\n" lines ++ "\n"

/-- The owner part of the normalized in-memory `RepoItem` shape of the page
components. -/
structure RepoOwner where
  login : String
  avatarUrl : String
  url : String

/-- The normalized `RepoItem` shape used by both page variants. -/
structure RepoItem where
  id : Int
  name : String
  fullName : String
  url : String
  description : Option String
  stars : Int
  language : Option String
  owner : RepoOwner

/-- Model of `String(n)` for the integer ids and star counts. -/
def intStr (i : Int) : String := toString i

/-- One data row of `toCSVFromRepos`; its inline `esc` helper is the same
code as `csvEscape`, applied to already-normalized fields. -/
def toCSVFromReposRow (r : RepoItem) : String :=
  joinStrings ","
    [ csvEscapeStr (intStr r.id),
      csvEscapeStr r.fullName,
      csvEscapeStr r.url,
      csvEscapeStr (r.description.getD ""),
      csvEscapeStr (intStr r.stars),
      csvEscapeStr (r.language.getD ""),
      csvEscapeStr r.owner.login,
      csvEscapeStr r.owner.url ]

/-- Model of `toCSVFromRepos` from the stars-dashboard page: fixed header
row of export names, one row per normalized item, trailing newline. -/
def toCSVFromRepos (repos : List RepoItem) : String :=
  let headers := ["id", "full_name", "url", "description",
                  "stars", "language", "owner_login", "owner_url"]
  let lines := joinStrings "," headers :: repos.map toCSVFromReposRow
  joinStrings "\n" lines ++ "\n"

/-! ## The item normalizer of the `/api/starred` GET route -/

/-- Model of the normalizing map `r => ({ id: r.id, name: r.name, ... })`
(the spec calls it `normalize`; that name is taken by Mathlib)
of the GET route, on one raw record.  Property reads on a missing key give
`undefined`; the source reads `r.owner.login` without optional chaining
(it would throw on a record with no owner — the model yields `undefined`
there instead; every record exercised carries an owner). -/
def normalizeRepo (r : JVal) : JVal :=
  .jobj
    [ ("id", getField r "id"),
      ("name", getField r "name"),
      ("fullName", getField r "full_name"),
      ("url", getField r "html_url"),
      ("description", getField r "description"),
      ("stars", getField r "stargazers_count"),
      ("language", getField r "language"),
      ("owner", .jobj
        [ ("login", getField (getField r "owner") "login"),
          ("avatarUrl", getField (getField r "owner") "avatar_url"),
          ("url", getField (getField r "owner") "html_url") ]) ]

/-! ## The aggregation loop of the `/api/export` POST route -/

/-- What one `fetch` of a starred-repositories page resolves to, as the
export route observes it: the `ok` flag and status, the text body (read on
error), the parsed JSON body, and the `link` response header. -/
structure FetchResult where
  ok : Bool
  status : Nat
  bodyText : String
  body : JVal
  link : Option String

/-- Outcome of the aggregation loop: an early return with the failing
page's status and raw body, or the accumulated items together with how many
pages were fetched and whether the loop was cut off by the iteration cap
while a `next` pointer was still pending (the spec's `truncated`). -/
inductive AggResult where
  | failure (status : Nat) (body : String) : AggResult
  | success (items : List JVal) (pagesFetched : Nat) (truncated : Bool) : AggResult

/-- The iteration cap of the export loop, `for (let i = 0; i < 100; i++)`. -/
def pageCap : Nat := 100

/-- Accumulator update of one loop iteration:
`if (Array.isArray(chunk) && chunk.length > 0) all.push(...chunk)`. -/
def accOf (all : List JVal) : JVal → List JVal
  | .jarr l => if l.isEmpty then all else all ++ l
  | _ => all

/-- The export loop with `fuel` iterations left: fetch the page; on a
non-ok response return its status and body; otherwise append the body when
it is a nonempty array, and continue at the page named by the `next` link
if there is one.  Exhausted fuel with a pending `next` is the truncated
exit of the `for` loop. -/
def aggLoop (fetch : ℚ → FetchResult) : Nat → ℚ → List JVal → Nat → AggResult
  | 0, _, all, fetched => .success all fetched true
  | Nat.succ fuel, page, all, fetched =>
    let res := fetch page
    if res.ok then
      let acc := accOf all res.body
      match parseNextFromLink res.link with
      | some n => aggLoop fetch fuel n acc (fetched + 1)
      | none => .success acc (fetched + 1) false
    else .failure res.status res.bodyText

/-- The whole aggregation of the export route: up to `pageCap` fetches
starting from page 1 with an empty accumulator. -/
def aggregateAll (fetch : ℚ → FetchResult) : AggResult :=
  aggLoop fetch pageCap (ratInt 1) [] 0

/-- The export format of the request body (zod-validated upstream). -/
inductive ExportFormat where
  | json : ExportFormat
  | csv : ExportFormat
deriving DecidableEq

/-- The error message the route builds from a failing page. -/
def githubErrorMsg (status : Nat) (text : String) : String :=
  "GitHub API error (" ++ toString status ++ "): " ++ text

/-- Minimal JSON string quoting for `JSON.stringify`. -/
def jsonQuote (s : String) : String :=
  "\"" ++ String.mk (s.data.foldr (fun c acc =>
    if c == '"' then '\\' :: '"' :: acc
    else if c == '\\' then '\\' :: '\\' :: acc
    else if c == '\n' then '\\' :: 'n' :: acc
    else if c == '\r' then '\\' :: 'r' :: acc
    else if c == '\t' then '\\' :: 't' :: acc
    else c :: acc) []) ++ "\""

/-- Is a value `undefined`?  `JSON.stringify` skips such object entries. -/
def isUndefined : JVal → Bool
  | .jundefined => true
  | _ => false

/-- `JSON.stringify` on a value, with a structural-depth fuel (the records
serialized here are two levels deep; the fuel is never exhausted on them).
`undefined` inside an array serializes as `null`; an object entry whose
value is `undefined` is skipped. -/
def jvalToJson : Nat → JVal → String
  | 0, _ => ""
  | Nat.succ fuel, v =>
    match v with
    | .jnull => "null"
    | .jundefined => "null"
    | .jbool b => if b then "true" else "false"
    | .jnum q => if q.den == 1 then toString q.num else toString q
    | .jstr s => jsonQuote s
    | .jarr l => "[" ++ joinStrings "," (l.map (jvalToJson fuel)) ++ "]"
    | .jobj fields =>
      "\x7b" ++ joinStrings ","
        ((fields.filter (fun kv => !isUndefined kv.2)).map
          (fun kv => jsonQuote kv.1 ++ ":" ++ jvalToJson fuel kv.2)) ++ "\x7d"

/-- `JSON.stringify(all)` for the accumulated record array. -/
def jsonStringify (all : List JVal) : String := jvalToJson 32 (.jarr all)

/-- The destination file name for each format. -/
def destName : ExportFormat → String
  | .csv => "stars.csv"
  | .json => "stars.json"

/-- The JSON body and status the POST route responds with. -/
inductive PostResponse where
  | okJson (count : Nat) (pathLabel : String) (format : ExportFormat) : PostResponse
  | errorJson (message : String) (status : Nat) : PostResponse

/-- What the POST route did: the artifact content written to disk, if any,
and the response returned. -/
structure PostResult where
  written : Option String
  response : PostResponse

/-- Model of the export POST handler past input validation: run the
aggregation; on failure respond with the failing page's status and message
and write nothing; on success serialize in the requested format, write the
artifact, and respond `ok` with the item count. -/
def POST (fetch : ℚ → FetchResult) (fmt : ExportFormat) : PostResult :=
  match aggregateAll fetch with
  | .failure s b => ⟨none, .errorJson (githubErrorMsg s b) s⟩
  | .success all _ _ =>
    let content :=
      match fmt with
      | .csv => toCSV all
      | .json => jsonStringify all
    ⟨some content, .okJson all.length (destName fmt) fmt⟩

/-! ## Reachability along the `next` chain -/

/-- `Reaches fetch p k q`: starting at page `p`, `k` successful fetches
each of which advertises a `next` pointer lead to page `q`. -/
inductive Reaches (fetch : ℚ → FetchResult) : ℚ → Nat → ℚ → Prop where
  | refl (p : ℚ) : Reaches fetch p 0 p
  | step {p q r : ℚ} {k : Nat} :
      (fetch p).ok = true →
      parseNextFromLink (fetch p).link = some q →
      Reaches fetch q k r →
      Reaches fetch p (k + 1) r

/-- Unfolding of one ok iteration that has a `next` pointer. -/
theorem aggLoop_step_next (fetch : ℚ → FetchResult) (fuel : Nat) (page : ℚ)
    (all : List JVal) (fetched : Nat) {n : ℚ}
    (hok : (fetch page).ok = true)
    (hnext : parseNextFromLink (fetch page).link = some n) :
    aggLoop fetch (fuel + 1) page all fetched =
      aggLoop fetch fuel n (accOf all (fetch page).body) (fetched + 1) := by
  simp only [aggLoop, hok, hnext, if_true]

/-- Unfolding of one ok iteration with no `next` pointer: the natural exit. -/
theorem aggLoop_step_stop (fetch : ℚ → FetchResult) (fuel : Nat) (page : ℚ)
    (all : List JVal) (fetched : Nat)
    (hok : (fetch page).ok = true)
    (hnext : parseNextFromLink (fetch page).link = none) :
    aggLoop fetch (fuel + 1) page all fetched =
      .success (accOf all (fetch page).body) (fetched + 1) false := by
  simp only [aggLoop, hok, hnext, if_true]

/-- Unfolding of a failing iteration. -/
theorem aggLoop_step_fail (fetch : ℚ → FetchResult) (fuel : Nat) (page : ℚ)
    (all : List JVal) (fetched : Nat)
    (hok : (fetch page).ok = false) :
    aggLoop fetch (fuel + 1) page all fetched =
      .failure (fetch page).status (fetch page).bodyText := by
  simp only [aggLoop, hok, Bool.false_eq_true, if_false]

/-- When every page reachable from `page` is ok and advertises a `next`
pointer, the loop spends all its fuel and exits truncated, having fetched
once per unit of fuel. -/
theorem aggLoop_all_next (fetch : ℚ → FetchResult) (fuel : Nat) :
    ∀ (page : ℚ) (all : List JVal) (fetched : Nat),
      (∀ k q, Reaches fetch page k q →
        (fetch q).ok = true ∧ ∃ r, parseNextFromLink (fetch q).link = some r) →
      ∃ items, aggLoop fetch fuel page all fetched = .success items (fetched + fuel) true := by
  induction fuel with
  | zero => exact fun page all fetched _ => ⟨all, rfl⟩
  | succ m ih =>
    intro page all fetched h
    obtain ⟨hok, r, hnext⟩ := h 0 page (.refl page)
    have hrec := ih r (accOf all (fetch page).body) (fetched + 1)
      (fun k q hr => h (k + 1) q (.step hok hnext hr))
    obtain ⟨items, hi⟩ := hrec
    refine ⟨items, ?_⟩
    rw [aggLoop_step_next fetch m page all fetched hok hnext, hi]
    congr 1
    omega

/-- C1.  For every subject, if the chain of `next` pointers returned by
successive page fetches never runs out (an infinite or cyclic chain — every
page reachable from page 1 responds ok and advertises a `next` pointer),
the full aggregation performs exactly `pageCap` (100) page fetches and then
stops, with the truncated exit taken (the page cap was hit while a `next`
pointer was still pending). -/
theorem c1_infinite_chain_hits_page_cap (fetch : ℚ → FetchResult)
    (h : ∀ k q, Reaches fetch (ratInt 1) k q →
      (fetch q).ok = true ∧ ∃ r, parseNextFromLink (fetch q).link = some r) :
    ∃ items, aggregateAll fetch = .success items 100 true := by
  have := aggLoop_all_next fetch pageCap (ratInt 1) [] 0 h
  simpa [aggregateAll, pageCap] using this

/-- A cyclic chain: every page responds ok and points at page 2. -/
def fetchCyc : ℚ → FetchResult := fun _ =>
  ⟨true, 200, "", .jarr [], some "<https://x/?page=2>; rel=\"next\""⟩

theorem c1_witness :
    ∃ items, aggregateAll fetchCyc = .success items 100 true :=
  c1_infinite_chain_hits_page_cap fetchCyc
    (fun _ _ _ => ⟨rfl, ratInt 2, rfl⟩)

/-! ## Finite chains -/

/-- `ChainTo fetch chain`: the pages listed in `chain` respond ok with the
listed array bodies, each entry's `link` header names the following entry's
page as `next`, and the last entry's header yields no `next` pointer. -/
def ChainTo (fetch : ℚ → FetchResult) : List (ℚ × List JVal) → Prop
  | [] => True
  | [(p, l)] =>
    (fetch p).ok = true ∧ (fetch p).body = .jarr l ∧
      parseNextFromLink (fetch p).link = none
  | (p, l) :: (q, m) :: rest =>
    (fetch p).ok = true ∧ (fetch p).body = .jarr l ∧
      parseNextFromLink (fetch p).link = some q ∧
      ChainTo fetch ((q, m) :: rest)

/-- Appending a page's array body via `accOf` is plain concatenation. -/
theorem accOf_jarr (all l : List JVal) : accOf all (.jarr l) = all ++ l := by
  cases l with
  | nil => simp [accOf]
  | cons a t => simp [accOf]

/-- Running the loop along a finite chain that fits in the fuel: every
page's items are appended in order and the loop exits naturally after one
fetch per chain entry. -/
theorem aggLoop_chain (fetch : ℚ → FetchResult) :
    ∀ (chain : List (ℚ × List JVal)) (p : ℚ) (l : List JVal)
      (all : List JVal) (fetched fuel : Nat),
      ChainTo fetch ((p, l) :: chain) → chain.length + 1 ≤ fuel →
      aggLoop fetch fuel p all fetched =
        .success (all ++ l ++ (chain.map Prod.snd).flatten)
          (fetched + (chain.length + 1)) false := by
  intro chain
  induction chain with
  | nil =>
    intro p l all fetched fuel h hlen
    obtain ⟨hok, hbody, hnone⟩ := h
    obtain ⟨m, rfl⟩ : ∃ m, fuel = m + 1 := ⟨fuel - 1, by omega⟩
    rw [aggLoop_step_stop fetch m p all fetched hok hnone, hbody, accOf_jarr]
    simp
  | cons hd tl ih =>
    intro p l all fetched fuel h hlen
    obtain ⟨q, m⟩ := hd
    obtain ⟨hok, hbody, hnext, hrest⟩ := h
    obtain ⟨fm, rfl⟩ : ∃ fm, fuel = fm + 1 := ⟨fuel - 1, by omega⟩
    rw [aggLoop_step_next fetch fm p all fetched hok hnext, hbody, accOf_jarr]
    have hlen' : tl.length + 1 ≤ fm := by
      simp only [List.length_cons] at hlen; omega
    rw [ih q m (all ++ l) (fetched + 1) fm hrest hlen']
    simp only [List.map_cons, List.flatten_cons, List.append_assoc, List.length_cons]
    congr 1
    omega

/-- The page number `k` as a rational. -/
def pageV (k : Nat) : ℚ := ratInt (Int.ofNat k)

/-- A `next` Link header pointing at page `k`. -/
def mkNextLink (k : Nat) : String :=
  "<https://x/?page=" ++ Nat.repr k ++ ">; rel=\"next\""

/-- A remote source with 101 pages: pages 1 through 100 each carry one
item and point at the following page; page 101 carries one item and no
`next` pointer. -/
def fetch101 (p : ℚ) : FetchResult :=
  if p.num ≤ 100 then
    ⟨true, 200, "", .jarr [.jnum p], some (mkNextLink (p.num.toNat + 1))⟩
  else ⟨true, 200, "", .jarr [.jnum p], none⟩

/-- The 101-page chain served by `fetch101`, starting at page 1. -/
def chain101 : List (ℚ × List JVal) :=
  (List.range 101).map (fun k => (pageV (k + 1), [.jnum (pageV (k + 1))]))

set_option maxRecDepth 100000 in
/-- C2, counterexample.  `fetch101` serves a finite sequence of successful
page responses whose last response carries no `next` pointer (a valid
101-page chain), yet the aggregation does not return the concatenation of
all 101 pages' items with a natural exit: it stops truncated after 100
fetches with only the first 100 items.  The claim holds only for chains of
at most `pageCap` pages. -/
theorem c2_counterexample :
    ChainTo fetch101 chain101 ∧
    aggregateAll fetch101 =
      .success ((List.range 100).map (fun k => .jnum (pageV (k + 1)))) 100 true ∧
    aggregateAll fetch101 ≠
      .success ((List.range 101).map (fun k => .jnum (pageV (k + 1)))) 101 false := by
  refine ⟨?_, ?_, ?_⟩
  · repeat (first | exact ⟨rfl, rfl, rfl⟩ | refine ⟨rfl, rfl, rfl, ?_⟩)
  · rfl
  · intro h
    have h2 :
        AggResult.success ((List.range 100).map (fun k => JVal.jnum (pageV (k + 1)))) 100 true =
          .success ((List.range 101).map (fun k => .jnum (pageV (k + 1)))) 101 false := by
      rw [← h]; rfl
    injection h2 with h3 h4 h5
    exact absurd h4 (by decide)

/-- C2, amended.  For every finite chain of at most `pageCap` (100)
successful page responses starting at page 1 whose last response carries
no `next` pointer, the full aggregation returns exactly the concatenation
of all pages' items in page order — order preserved, no deduplication —
with one fetch per page and the natural (non-truncated) exit. -/
theorem c2_finite_chain_concat (fetch : ℚ → FetchResult) (first : List JVal)
    (chain : List (ℚ × List JVal))
    (h : ChainTo fetch ((ratInt 1, first) :: chain))
    (hlen : chain.length + 1 ≤ pageCap) :
    aggregateAll fetch =
      .success (first ++ (chain.map Prod.snd).flatten) (chain.length + 1) false := by
  have := aggLoop_chain fetch chain (ratInt 1) first [] 0 pageCap h hlen
  simpa [aggregateAll] using this

/-- A two-page chain: page 1 carries item 10 and points at page 2, which
carries item 20 and ends the chain. -/
def fetchTwoPages (p : ℚ) : FetchResult :=
  if p = ratInt 2 then ⟨true, 200, "", .jarr [.jnum (ratInt 20)], none⟩
  else ⟨true, 200, "", .jarr [.jnum (ratInt 10)], some "<https://x/?page=2>; rel=\"next\""⟩

theorem c2_witness :
    aggregateAll fetchTwoPages =
      .success [.jnum (ratInt 10), .jnum (ratInt 20)] 2 false :=
  c2_finite_chain_concat fetchTwoPages [.jnum (ratInt 10)]
    [(ratInt 2, [.jnum (ratInt 20)])]
    ⟨rfl, rfl, rfl, rfl, rfl, rfl⟩ (by decide)

/-- If a failing page is reached within the available fuel, the loop
returns exactly that page's status and raw body text. -/
theorem aggLoop_fail_of_reaches (fetch : ℚ → FetchResult) :
    ∀ {p : ℚ} {k : Nat} {q : ℚ}, Reaches fetch p k q →
      ∀ (fuel : Nat) (all : List JVal) (fetched : Nat), k < fuel →
        (fetch q).ok = false →
        aggLoop fetch fuel p all fetched = .failure (fetch q).status (fetch q).bodyText := by
  intro p k q h
  induction h with
  | refl p =>
    intro fuel all fetched hk hq
    obtain ⟨m, rfl⟩ : ∃ m, fuel = m + 1 := ⟨fuel - 1, by omega⟩
    exact aggLoop_step_fail fetch m p all fetched hq
  | step hok hnext _ ih =>
    intro fuel all fetched hk hq
    obtain ⟨m, rfl⟩ : ∃ m, fuel = m + 1 := ⟨fuel - 1, by omega⟩
    rw [aggLoop_step_next fetch m _ all fetched hok hnext]
    exact ih m _ _ (by omega) hq

/-- C3.  If any page fetch reached by the aggregation loop (within the
page cap) returns a non-success status, the export returns a Failure
response carrying that page's status and raw body, no items from earlier
successfully fetched pages are exposed via the success path, and the
export artifact is not written. -/
theorem c3_failure_propagation (fetch : ℚ → FetchResult) (fmt : ExportFormat)
    (k : Nat) (q : ℚ)
    (hreach : Reaches fetch (ratInt 1) k q)
    (hk : k < pageCap)
    (hfail : (fetch q).ok = false) :
    POST fetch fmt =
      ⟨none, .errorJson (githubErrorMsg (fetch q).status (fetch q).bodyText)
        (fetch q).status⟩ := by
  have hagg := aggLoop_fail_of_reaches fetch hreach pageCap [] 0 hk hfail
  simp only [POST, aggregateAll] at *
  rw [hagg]

/-- Page 1 succeeds and points at page 2, which fails with a 403. -/
def fetchFailPage2 (p : ℚ) : FetchResult :=
  if p = ratInt 2 then ⟨false, 403, "rate limited", .jnull, none⟩
  else ⟨true, 200, "", .jarr [.jnum (ratInt 10)], some "<https://x/?page=2>; rel=\"next\""⟩

theorem c3_witness :
    POST fetchFailPage2 .csv =
      ⟨none, .errorJson (githubErrorMsg 403 "rate limited") 403⟩ :=
  c3_failure_propagation fetchFailPage2 .csv 1 (ratInt 2)
    (.step rfl rfl (.refl (ratInt 2))) (by decide) rfl

/-- Model of `Array.isArray`. -/
def isArrB : JVal → Bool
  | .jarr _ => true
  | _ => false

/-- A body that is not an array, or is an empty array, leaves the
accumulator unchanged. -/
theorem accOf_eq_self (all : List JVal) (b : JVal)
    (h : isArrB b = false ∨ b = .jarr []) : accOf all b = all := by
  rcases h with h | h
  · cases b <;> simp_all [accOf, isArrB]
  · subst h; simp [accOf]

/-- C10.  A successful page response whose JSON body is not an array (or
is an empty array) contributes zero items: nothing is appended to the
accumulator, no failure is raised, and the loop still consults the
response's Link header to decide whether to continue — ending the
aggregation normally when it yields no `next` pointer. -/
theorem c10_non_array_contributes_nothing (fetch : ℚ → FetchResult)
    (fuel : Nat) (page : ℚ) (all : List JVal) (fetched : Nat)
    (hok : (fetch page).ok = true)
    (hbody : isArrB (fetch page).body = false ∨ (fetch page).body = .jarr []) :
    aggLoop fetch (fuel + 1) page all fetched =
      match parseNextFromLink (fetch page).link with
      | some n => aggLoop fetch fuel n all (fetched + 1)
      | none => .success all (fetched + 1) false := by
  have hacc := accOf_eq_self all (fetch page).body hbody
  cases hn : parseNextFromLink (fetch page).link with
  | some n =>
    rw [aggLoop_step_next fetch fuel page all fetched hok hn, hacc]
  | none =>
    rw [aggLoop_step_stop fetch fuel page all fetched hok hn, hacc]

/-- A single page whose JSON body is not an array and with no Link header. -/
def fetchNullBody : ℚ → FetchResult := fun _ => ⟨true, 200, "", .jnull, none⟩

theorem c10_witness :
    aggregateAll fetchNullBody = .success [] 1 false ∧
    POST fetchNullBody .json = ⟨some "[]", .okJson 0 "stars.json" .json⟩ := by
  have h := c10_non_array_contributes_nothing fetchNullBody 99 (ratInt 1) [] 0 rfl (Or.inl rfl)
  have ha : aggregateAll fetchNullBody = .success [] 1 false := h
  refine ⟨ha, ?_⟩
  simp only [POST]
  rw [ha]
  rfl

/-! ## CSV claims -/

/-- After collapsing, a field holds no line-break characters: the `\n`
disjunct of the quoting test can never fire. -/
theorem collapse_no_nl (l : List Char) :
    '\n' ∉ collapseNewlines l ∧ '\r' ∉ collapseNewlines l := by
  induction l using collapseNewlines.induct with
  | case1 => simp [collapseNewlines]
  | case2 rest ih => simp [collapseNewlines, ih.1, ih.2]
  | case3 rest h ih => simp [collapseNewlines, ih.1, ih.2]
  | case4 rest ih => simp [collapseNewlines, ih.1, ih.2]
  | case5 c rest h1 h2 h3 ih =>
    rw [collapseNewlines.eq_5 c rest h1 h2 h3]
    simp only [List.mem_cons, not_or]
    exact ⟨⟨fun h => h3 h.symm, ih.1⟩, ⟨fun h => h2 h.symm, ih.2⟩⟩

/-- Doubling quotes never shortens a string. -/
theorem doubleQuotes_length_ge (l : List Char) :
    l.length ≤ (doubleQuotes l).length := by
  induction l using doubleQuotes.induct with
  | case1 => simp [doubleQuotes]
  | case2 rest ih => simp only [doubleQuotes, List.length_cons]; omega
  | case3 c rest h ih =>
    rw [doubleQuotes.eq_3 c rest h]
    simp only [List.length_cons]
    omega

/-- Unfolding of `csvEscapeStr` with its let inlined. -/
theorem csvEscapeStr_eq (s : String) :
    csvEscapeStr s =
      if ((collapseNewlines s.data).contains '"' || (collapseNewlines s.data).contains ','
          || (collapseNewlines s.data).contains '\n')
      then String.mk ('"' :: (doubleQuotes (collapseNewlines s.data) ++ ['"']))
      else String.mk (collapseNewlines s.data) := rfl

/-- C5.  A field is wrapped in double quotes with internal double quotes
doubled if and only if the field's string form — with every kind of line
break (`\n`, `\r\n`, `\r`) first collapsed to a single space — contains a
comma, a double quote, or a newline; after collapsing no line break can
remain, so the newline disjunct of the check never fires; and the
spec's example `He said "hi", ok` serializes to `"He said ""hi"", ok"`. -/
theorem c5_quoting_iff (s : String) :
    (csvEscapeStr s =
        String.mk ('"' :: (doubleQuotes (collapseNewlines s.data) ++ ['"'])) ↔
      (',' ∈ collapseNewlines s.data ∨ '"' ∈ collapseNewlines s.data ∨
        '\n' ∈ collapseNewlines s.data)) ∧
    '\n' ∉ collapseNewlines s.data ∧ '\r' ∉ collapseNewlines s.data ∧
    csvEscape (.jstr "He said \"hi\", ok") = "\"He said \"\"hi\"\", ok\"" := by
  obtain ⟨hnl, hcr⟩ := collapse_no_nl s.data
  refine ⟨?_, hnl, hcr, by rfl⟩
  rw [csvEscapeStr_eq]
  by_cases hb : ((collapseNewlines s.data).contains '"'
      || (collapseNewlines s.data).contains ','
      || (collapseNewlines s.data).contains '\n') = true
  · rw [if_pos hb]
    simp only [Bool.or_eq_true, List.elem_iff] at hb
    simp only [iff_true_intro rfl, true_iff]
    tauto
  · rw [if_neg hb]
    simp only [Bool.or_eq_true, List.elem_iff] at hb
    push_neg at hb
    constructor
    · intro heq
      exfalso
      have hdata := congrArg String.data heq
      have hlen := congrArg List.length hdata
      simp only [List.length_cons, List.length_append, List.length_singleton] at hlen
      have := doubleQuotes_length_ge (collapseNewlines s.data)
      omega
    · intro h
      rcases h with h | h | h
      · exact absurd h hb.1.2
      · exact absurd h hb.1.1
      · exact absurd h hb.2

/-- The first line of a serialized output, as a reader of the CSV sees it. -/
def firstLine (s : String) : String :=
  String.mk (s.data.takeWhile (fun c => c != '\n'))

/-- `takeWhile` stops exactly at the first failing element after a clean
prefix. -/
theorem takeWhile_append_stop (p : Char → Bool) (a : List Char) (c : Char)
    (b : List Char) (ha : ∀ x ∈ a, p x = true) (hc : p c = false) :
    (a ++ c :: b).takeWhile p = a := by
  induction a with
  | nil => simp [List.takeWhile_cons, hc]
  | cons x t ih =>
    have px := ha x (by simp)
    simp only [List.cons_append, List.takeWhile_cons, px, if_true]
    rw [ih (fun y hy => ha y (by simp [hy]))]

/-- The first line of `lines.join("\n") + "\n"` is the first entry of
`lines`, provided it holds no newline itself. -/
theorem firstLine_join (hdr : String) (rows : List String)
    (h : '\n' ∉ hdr.data) :
    firstLine (joinStrings "\n" (hdr :: rows) ++ "\n") = hdr := by
  have hp : ∀ x ∈ hdr.data, (x != '\n') = true := by
    intro x hx
    simp only [bne_iff_ne, ne_eq]
    exact fun e => h (e ▸ hx)
  cases rows with
  | nil =>
    show firstLine (hdr ++ "\n") = hdr
    unfold firstLine
    rw [String.data_append]
    rw [show ("\n" : String).data = ['\n'] from rfl]
    rw [takeWhile_append_stop _ hdr.data '\n' [] hp (by simp)]
  | cons y t =>
    show firstLine (hdr ++ "\n" ++ joinStrings "\n" (y :: t) ++ "\n") = hdr
    unfold firstLine
    rw [String.data_append, String.data_append, String.data_append]
    rw [show ("\n" : String).data = ['\n'] from rfl]
    rw [List.append_assoc, List.append_assoc]
    rw [show ['\n'] ++ ((joinStrings "\n" (y :: t)).data ++ ['\n']) =
          '\n' :: ((joinStrings "\n" (y :: t)).data ++ ['\n']) from rfl]
    rw [takeWhile_append_stop _ hdr.data '\n' _ hp (by simp)]

/-- C6, counterexample.  The export route's serializer `toCSV` does not
emit the claimed header: already on the empty item list its first output
row is `id,full_name,html_url,description,stargazers_count,language,
owner_login,owner_html_url`, not the claimed `id,full_name,url,description,
stars,language,owner_login,owner_url` (only the client-side
`toCSVFromRepos` emits the latter). -/
theorem c6_counterexample :
    firstLine (toCSV []) ≠
      "id,full_name,url,description,stars,language,owner_login,owner_url" := by
  decide

/-- C6, amended.  For every item list, each serializer's first output row
is its own fixed header: `toCSVFromRepos` emits exactly the claimed
`id,full_name,url,description,stars,language,owner_login,owner_url`, while
the export route's `toCSV` emits the raw source field names
`id,full_name,html_url,description,stargazers_count,language,owner_login,
owner_html_url`. -/
theorem c6_fixed_header_rows (items : List JVal) (repos : List RepoItem) :
    firstLine (toCSV items) =
      "id,full_name,html_url,description,stargazers_count,language,owner_login,owner_html_url" ∧
    firstLine (toCSVFromRepos repos) =
      "id,full_name,url,description,stars,language,owner_login,owner_url" := by
  constructor
  · show firstLine (joinStrings "\n"
      (joinStrings "," ["id", "full_name", "html_url", "description",
        "stargazers_count", "language", "owner_login", "owner_html_url"]
        :: items.map toCSVRow) ++ "\n") = _
    rw [firstLine_join _ _ (by decide)]
    exact rfl
  · show firstLine (joinStrings "\n"
      (joinStrings "," ["id", "full_name", "url", "description",
        "stars", "language", "owner_login", "owner_url"]
        :: repos.map toCSVFromReposRow) ++ "\n") = _
    rw [firstLine_join _ _ (by decide)]
    exact rfl

/-! ## Normalization claims -/

/-- The raw remote record of the spec's normalization example. -/
def raw7 : JVal :=
  .jobj [("id", .jnum (ratInt 7)), ("full_name", .jstr "a/b"),
         ("stargazers_count", .jnum (ratInt 42)), ("language", .jnull),
         ("owner", .jobj [("login", .jstr "a"), ("avatar_url", .jstr "u"),
                          ("html_url", .jstr "p")])]

/-- The output the claim says the normalizer produces. -/
def claimed7 : JVal :=
  .jobj [("id", .jnum (ratInt 7)), ("fullName", .jstr "a/b"),
         ("starCount", .jnum (ratInt 42)), ("primaryLanguage", .jnull),
         ("owner", .jobj [("login", .jstr "a"), ("avatarUrl", .jstr "u"),
                          ("url", .jstr "p")])]

/-- C7, counterexample.  On the claim's raw record the normalizer does not
produce the claimed shape: it stores the star count under `stars` and the
language under `language`, and has no `starCount` or `primaryLanguage`
field at all. -/
theorem c7_counterexample :
    normalizeRepo raw7 ≠ claimed7 ∧
    getField (normalizeRepo raw7) "starCount" = .jundefined ∧
    getField (normalizeRepo raw7) "primaryLanguage" = .jundefined ∧
    getField (normalizeRepo raw7) "stars" = .jnum (ratInt 42) ∧
    getField (normalizeRepo raw7) "language" = .jnull := by
  refine ⟨?_, rfl, rfl, rfl, rfl⟩
  intro h
  have hc := congrArg (fun v => getField v "starCount") h
  exact JVal.noConfusion hc

/-- C7, amended.  For the raw record
`(id:7, full_name:"a/b", stargazers_count:42, language:null, owner:...)`
the normalizer yields `(id:7, name:undefined, fullName:"a/b",
url:undefined, description:undefined, stars:42, language:null,
owner:(login:"a", avatarUrl:"u", url:"p"))` — the internal names are
`stars` and `language`, not the spec's `starCount` and `primaryLanguage`,
and fields missing from the raw record come out `undefined` (dropped if
the object is then JSON-serialized). -/
theorem c7_normalize_on_example :
    normalizeRepo raw7 =
      .jobj [("id", .jnum (ratInt 7)), ("name", .jundefined),
             ("fullName", .jstr "a/b"), ("url", .jundefined),
             ("description", .jundefined), ("stars", .jnum (ratInt 42)),
             ("language", .jnull),
             ("owner", .jobj [("login", .jstr "a"), ("avatarUrl", .jstr "u"),
                              ("url", .jstr "p")])] := rfl

/-! ## Link-header parser claims: list helpers -/

/-- Splitting never yields the empty list of pieces. -/
theorem splitOnChar_ne_nil (sep : Char) (l : List Char) :
    splitOnChar sep l ≠ [] := by
  cases l with
  | nil => simp [splitOnChar]
  | cons c t =>
    simp only [splitOnChar]
    cases splitOnChar sep t <;> split <;> split <;> simp

/-- A separator-free list splits into itself alone. -/
theorem splitOnChar_no_sep (sep : Char) (l : List Char)
    (h : ∀ c ∈ l, (c == sep) = false) : splitOnChar sep l = [l] := by
  induction l with
  | nil => rfl
  | cons c t ih =>
    have hc := h c (by simp)
    have ht := ih (fun x hx => h x (by simp [hx]))
    simp only [splitOnChar, ht, hc]
    simp

/-- Splitting at the first separator after a separator-free prefix. -/
theorem splitOnChar_append_sep (sep : Char) (a b : List Char)
    (h : ∀ c ∈ a, (c == sep) = false) :
    splitOnChar sep (a ++ sep :: b) = a :: splitOnChar sep b := by
  induction a with
  | nil =>
    obtain ⟨y, ys, hys⟩ : ∃ y ys, splitOnChar sep b = y :: ys := by
      cases hx : splitOnChar sep b with
      | nil => exact absurd hx (splitOnChar_ne_nil sep b)
      | cons y ys => exact ⟨y, ys, rfl⟩
    simp only [List.nil_append, splitOnChar, hys, beq_self_eq_true, if_true]
  | cons c t ih =>
    have hc := h c (by simp)
    have ht := ih (fun x hx => h x (by simp [hx]))
    rw [List.cons_append, splitOnChar.eq_2, ht]
    simp [hc]

/-- `dropWhile` stops exactly at the first failing element after a clean
prefix. -/
theorem dropWhile_append_stop (p : Char → Bool) (a : List Char) (c : Char)
    (b : List Char) (ha : ∀ x ∈ a, p x = true) (hc : p c = false) :
    (a ++ c :: b).dropWhile p = c :: b := by
  induction a with
  | nil => simp [List.dropWhile_cons, hc]
  | cons x t ih =>
    have px := ha x (by simp)
    simp only [List.cons_append, List.dropWhile_cons, px, if_true]
    exact ih (fun y hy => ha y (by simp [hy]))

/-- `takeWhile` keeps a list all of whose elements pass. -/
theorem takeWhile_all (p : Char → Bool) (l : List Char)
    (h : ∀ x ∈ l, p x = true) : l.takeWhile p = l := by
  induction l with
  | nil => rfl
  | cons x t ih =>
    have px := h x (by simp)
    simp only [List.takeWhile_cons, px, if_true]
    rw [ih (fun y hy => h y (by simp [hy]))]

/-- `takeWhile` passes over a clean prefix. -/
theorem takeWhile_append_all (p : Char → Bool) (a b : List Char)
    (h : ∀ x ∈ a, p x = true) :
    (a ++ b).takeWhile p = a ++ b.takeWhile p := by
  induction a with
  | nil => rfl
  | cons x t ih =>
    have px := h x (by simp)
    simp only [List.cons_append, List.takeWhile_cons, px, if_true]
    rw [ih (fun y hy => h y (by simp [hy]))]

/-- Trimming fixes a list whose two ends are not whitespace. -/
theorem jsTrim_of_ends (c d : Char) (l : List Char)
    (hc : isJsWs c = false) (hd : isJsWs d = false) :
    jsTrim (c :: l ++ [d]) = c :: l ++ [d] := by
  unfold jsTrim
  rw [show ((c :: l ++ [d]).dropWhile isJsWs) = c :: l ++ [d] by
    simp [List.dropWhile_cons, hc]]
  rw [show (c :: l ++ [d]).reverse = d :: (l.reverse ++ [c]) by simp]
  rw [show ((d :: (l.reverse ++ [c])).dropWhile isJsWs) = d :: (l.reverse ++ [c]) by
    simp [List.dropWhile_cons, hd]]
  simp

/-- The capture of the rel pattern on a well-formed `rel="<name>"` text:
when the name holds no line terminator, the capture is exactly the name. -/
theorem relCapture_wellformed (rel : List Char)
    (h : ∀ c ∈ rel, (c != '\n') = true ∧ (c != '\r') = true) :
    relCapture ('r' :: 'e' :: 'l' :: '=' :: '"' :: (rel ++ ['"'])) = some rel := by
  show (match lastQuoteSplit ((rel ++ ['"']).takeWhile
          (fun c => c != '\n' && c != '\r')) with
        | some cap => some cap
        | none => relCapture (rel ++ ['"'])) = some rel
  rw [takeWhile_all _ _ (by
    intro x hx
    rcases List.mem_append.mp hx with hx | hx
    · simp [(h x hx).1, (h x hx).2]
    · simp at hx; simp [hx])]
  rw [show lastQuoteSplit (rel ++ ['"']) = some rel by
    unfold lastQuoteSplit
    rw [show (rel ++ ['"']).reverse = '"' :: rel.reverse by simp]
    simp [List.dropWhile_cons]]

/-- The query pairs of the fixed test URL `//x/?page=<v>`. -/
theorem queryPairs_page (v : List Char)
    (hv : ∀ c ∈ v, c ≠ '#' ∧ c ≠ '&') :
    queryPairs ("//x/?page=".data ++ v) = [("page".data, v)] := by
  have hfix : ∀ x ∈ "//x/?page=".data, (x != '#') = true := by decide
  have hamp : ∀ x ∈ "page=".data, (x == '&') = false := by decide
  unfold queryPairs
  rw [takeWhile_all _ _ (fun x hx => by
    rcases List.mem_append.mp hx with hx | hx
    · exact hfix x hx
    · simpa using (hv x hx).1)]
  rw [show ("//x/?page=".data ++ v) = "//x/".data ++ '?' :: ("page=".data ++ v) from rfl]
  show (match List.dropWhile (fun c => c != '?') ("//x/".data ++ '?' :: ("page=".data ++ v)) with
        | [] => ([] : List (List Char × List Char))
        | _ :: qs => ((splitOnChar '&' qs).filter (fun seg => !seg.isEmpty)).map querySegToPair) =
      [("page".data, v)]
  rw [dropWhile_append_stop _ "//x/".data '?' _ (by decide) (by decide)]
  show ((splitOnChar '&' ("page=".data ++ v)).filter (fun seg => !seg.isEmpty)).map querySegToPair =
      [("page".data, v)]
  rw [splitOnChar_no_sep '&' ("page=".data ++ v) (fun x hx => by
    rcases List.mem_append.mp hx with hx | hx
    · exact hamp x hx
    · simpa using (hv x hx).2)]
  show [querySegToPair ("page=".data ++ v)] = [("page".data, v)]
  unfold querySegToPair
  rw [show ("page=".data ++ v) = "page".data ++ '=' :: v from rfl]
  rw [takeWhile_append_stop _ "page".data '=' _ (by decide) (by decide)]
  rw [dropWhile_append_stop _ "page".data '=' _ (by decide) (by decide)]

theorem parseUrl_page (v : List Char) (hv : ∀ c ∈ v, c ≠ '#' ∧ c ≠ '&') :
    parseUrl ("https://x/?page=".data ++ v) =
      some ⟨"https".data, [("page".data, v)]⟩ := by
  unfold parseUrl
  rw [show ("https://x/?page=".data ++ v) =
        "https".data ++ ':' :: ("//x/?page=".data ++ v) from rfl]
  rw [takeWhile_append_stop _ "https".data ':' _ (by decide) (by decide)]
  rw [dropWhile_append_stop _ "https".data ':' _ (by decide) (by decide)]
  show some (JsUrl.mk "https".data (queryPairs ("//x/?page=".data ++ v))) =
    some (JsUrl.mk "https".data [("page".data, v)])
  rw [queryPairs_page v hv]

/-- `parseLinkHeader` on a present header is the fold of its entries (the
empty header folds over one empty entry, which contributes nothing, so the
equation holds for it too). -/
theorem parseLinkHeader_eq_foldl (s : String) :
    parseLinkHeader (some s) =
      (splitOnChar ',' s.data).foldl stepEntry emptyCursor := by
  obtain ⟨d⟩ := s
  cases d with
  | nil => rfl
  | cons c t => rfl

/-- The `; rel="<name>"` tail of a well-formed Link-header entry. -/
def relEntryTail (rel : List Char) : List Char :=
  ' ' :: 'r' :: 'e' :: 'l' :: '=' :: '"' :: (rel ++ ['"'])

/-- The `<url>` section of a well-formed entry pointing at page `v`. -/
def urlSection (v : List Char) : List Char :=
  '<' :: (("https://x/?page=".data ++ v) ++ ['>'])

/-- A well-formed Link-header entry `<https://x/?page=v>; rel="<name>"`. -/
def linkEntry (rel v : List Char) : List Char :=
  urlSection v ++ ';' :: relEntryTail rel

/-- Characters of the URL section come from its fixed text or from `v`. -/
theorem mem_urlSection (v : List Char) (c : Char) (hc : c ∈ urlSection v) :
    c ∈ "<>https://x/?page=".data ∨ c ∈ v := by
  unfold urlSection at hc
  simp only [List.mem_cons, List.mem_append, List.mem_singleton] at hc ⊢
  tauto

/-- Characters of the rel tail come from its fixed text or from the name. -/
theorem mem_relEntryTail (rel : List Char) (c : Char) (hc : c ∈ relEntryTail rel) :
    c ∈ " rel=\"".data ∨ c ∈ rel := by
  unfold relEntryTail at hc
  simp only [List.mem_cons, List.mem_append, List.mem_singleton] at hc ⊢
  tauto

/-- Characters of a well-formed entry come from the fixed pool, the page
value, or the rel name. -/
theorem mem_linkEntry (rel v : List Char) (c : Char) (hc : c ∈ linkEntry rel v) :
    c ∈ "<>; rel=\"https://x/?page=".data ∨ c ∈ v ∨ c ∈ rel := by
  unfold linkEntry at hc
  rcases List.mem_append.mp hc with h | h
  · rcases mem_urlSection v c h with h | h
    · exact Or.inl ((show ∀ x ∈ "<>https://x/?page=".data,
        x ∈ "<>; rel=\"https://x/?page=".data by decide) c h)
    · exact Or.inr (Or.inl h)
  · rcases List.mem_cons.mp h with rfl | h
    · exact Or.inl (by decide)
    · rcases mem_relEntryTail rel c h with h | h
      · exact Or.inl ((show ∀ x ∈ " rel=\"".data,
          x ∈ "<>; rel=\"https://x/?page=".data by decide) c h)
      · exact Or.inr (Or.inr h)

/-- The contribution of a well-formed entry: recorded under its rel name —
whatever that name is — exactly when the page value is a truthy number; no
check restricts the rel name to first/prev/next/last, and no positivity or
finiteness test is applied to the number. -/
theorem contribEntry_linkEntry (rel v : List Char)
    (hrel : ∀ c ∈ rel, c ≠ ',' ∧ c ≠ ';' ∧ c ≠ '\n' ∧ c ≠ '\r')
    (hv : ∀ c ∈ v, c ≠ ',' ∧ c ≠ ';' ∧ c ≠ '<' ∧ c ≠ '>' ∧ c ≠ '#' ∧ c ≠ '&')
    (hvne : v ≠ []) :
    contribEntry (linkEntry rel v) =
      (if (jsNumber v).truthy = true then some (String.mk rel, jsNumber v)
       else none) := by
  have hsa : ∀ c ∈ urlSection v, (c == ';') = false := by
    intro c hc
    rcases mem_urlSection v c hc with h | h
    · exact (show ∀ x ∈ "<>https://x/?page=".data, (x == ';') = false by decide) c h
    · simpa using (hv c h).2.1
  have hsb : ∀ c ∈ relEntryTail rel, (c == ';') = false := by
    intro c hc
    rcases mem_relEntryTail rel c hc with h | h
    · exact (show ∀ x ∈ " rel=\"".data, (x == ';') = false by decide) c h
    · simpa using (hrel c h).2.1
  have hfil : (urlSection v).filter (fun c => c != '<' && c != '>') =
      "https://x/?page=".data ++ v := by
    show ((("https://x/?page=".data ++ v) ++ ['>']).filter
      (fun c => c != '<' && c != '>')) = _
    rw [List.filter_append, List.filter_append]
    rw [show ("https://x/?page=".data.filter (fun c => c != '<' && c != '>')) =
          "https://x/?page=".data from by decide]
    rw [show (['>'].filter (fun c => c != '<' && c != '>')) = [] from by decide]
    rw [List.filter_eq_self.mpr (fun c hc => by
      simp only [Bool.and_eq_true, bne_iff_ne, ne_eq]
      exact ⟨(hv c hc).2.2.1, (hv c hc).2.2.2.1⟩)]
    simp
  unfold contribEntry linkEntry
  rw [splitOnChar_append_sep ';' (urlSection v) (relEntryTail rel) hsa]
  rw [splitOnChar_no_sep ';' (relEntryTail rel) hsb]
  show (match parseUrl ((jsTrim (urlSection v)).filter (fun c => c != '<' && c != '>')) with
        | none => none
        | some url =>
          match relCapture (jsTrim (relEntryTail rel)),
            (match searchGet url "page".data with
             | none => none
             | some [] => none
             | some s => some (jsNumber s)) with
          | some r, some n => if n.truthy = true then some (String.mk r, n) else none
          | _, _ => none) =
      (if (jsNumber v).truthy = true then some (String.mk rel, jsNumber v) else none)
  rw [show jsTrim (urlSection v) = urlSection v from
    jsTrim_of_ends '<' '>' ("https://x/?page=".data ++ v) rfl rfl]
  rw [hfil]
  rw [parseUrl_page v (fun c hc => ⟨(hv c hc).2.2.2.2.1, (hv c hc).2.2.2.2.2⟩)]
  show (match relCapture (jsTrim (relEntryTail rel)),
        (match searchGet (JsUrl.mk "https".data [("page".data, v)]) "page".data with
         | none => none
         | some [] => none
         | some s => some (jsNumber s)) with
        | some r, some n => if n.truthy = true then some (String.mk r, n) else none
        | _, _ => none) = _
  rw [show searchGet (JsUrl.mk "https".data [("page".data, v)]) "page".data = some v
    from rfl]
  obtain ⟨c0, v', rfl⟩ : ∃ c0 v', v = c0 :: v' := by
    cases v with
    | nil => exact absurd rfl hvne
    | cons a b => exact ⟨a, b, rfl⟩
  rw [show jsTrim (relEntryTail rel) = 'r' :: 'e' :: 'l' :: '=' :: '"' :: (rel ++ ['"'])
    from jsTrim_of_ends 'r' '"' ('e' :: 'l' :: '=' :: '"' :: rel) rfl rfl]
  rw [relCapture_wellformed rel (fun c hc =>
    ⟨by simpa using (hrel c hc).2.2.1, by simpa using (hrel c hc).2.2.2⟩)]

/-- C4, counterexample.  `parseLinkHeader` records entries the claim says
are dropped: a `page=-5` entry is recorded under `next` with the
non-positive value `-5` (and `parseNextFromLink` likewise returns `-5`);
an entry whose rel name is `foo` — none of first/prev/next/last — is
recorded under the key `foo`; and a `page=Infinity` entry is recorded
under `next` with a non-finite value. -/
theorem c4_counterexample :
    (parseLinkHeader (some "<https://x/?page=-5>; rel=\"next\"")) "next"
      = some (.fin (ratInt (-5))) ∧
    (parseLinkHeader (some "<https://x/?page=3>; rel=\"foo\"")) "foo"
      = some (.fin (ratInt 3)) ∧
    (parseLinkHeader (some "<https://x/?page=Infinity>; rel=\"next\"")) "next"
      = some (.inf false) ∧
    parseNextFromLink (some "<https://x/?page=-5>; rel=\"next\"")
      = some (ratInt (-5)) :=
  ⟨rfl, rfl, rfl, rfl⟩

/-- C4, amended.  For every well-formed Link-header entry
`<https://x/?page=v>; rel="<name>"` (name free of `,;` and line breaks,
page text `v` nonempty and free of `,;<>#&`), `parseLinkHeader` records
the entry under its captured rel name — whatever that name is — if and
only if the page text converts to a truthy number (nonzero, non-NaN;
negative and infinite values included); it applies no restriction to the
four standard rel names and no positivity or finiteness check.  (Only
`parseNextFromLink` requires rel to be exactly `next` and the number
finite — but it too accepts negatives, as the counterexample shows.) -/
theorem c4_any_rel_truthy_number_recorded (rel v : List Char)
    (hrel : ∀ c ∈ rel, c ≠ ',' ∧ c ≠ ';' ∧ c ≠ '\n' ∧ c ≠ '\r')
    (hv : ∀ c ∈ v, c ≠ ',' ∧ c ≠ ';' ∧ c ≠ '<' ∧ c ≠ '>' ∧ c ≠ '#' ∧ c ≠ '&')
    (hvne : v ≠ []) :
    parseLinkHeader (some (String.mk (linkEntry rel v))) =
      (if (jsNumber v).truthy = true
       then updCursor emptyCursor (String.mk rel) (jsNumber v)
       else emptyCursor) := by
  have hcomma : ∀ c ∈ linkEntry rel v, (c == ',') = false := by
    intro c hc
    rcases mem_linkEntry rel v c hc with h | h | h
    · exact (show ∀ x ∈ "<>; rel=\"https://x/?page=".data,
        (x == ',') = false by decide) c h
    · simpa using (hv c h).1
    · simpa using (hrel c h).1
  rw [parseLinkHeader_eq_foldl]
  show (splitOnChar ',' (linkEntry rel v)).foldl stepEntry emptyCursor = _
  rw [splitOnChar_no_sep ',' _ hcomma]
  show stepEntry emptyCursor (linkEntry rel v) = _
  unfold stepEntry
  rw [contribEntry_linkEntry rel v hrel hv hvne]
  by_cases ht : (jsNumber v).truthy = true
  · rw [if_pos ht, if_pos ht]
  · rw [if_neg ht, if_neg ht]

theorem c4_witness :
    parseLinkHeader (some (String.mk (linkEntry "prev".data "7".data))) =
      updCursor emptyCursor "prev" (.fin (ratInt 7)) := by
  rw [c4_any_rel_truthy_number_recorded "prev".data "7".data
    (by decide) (by decide) (by decide)]
  rw [if_pos (by decide)]
  rfl

/-! ## Order independence of the cursor parser -/

/-- Joining comma-free parts with `,` and re-splitting recovers the parts. -/
theorem splitOnChar_join (parts : List String) (hne : parts ≠ [])
    (h : ∀ p ∈ parts, ∀ c ∈ p.data, (c == ',') = false) :
    splitOnChar ',' (joinStrings "," parts).data = parts.map String.data := by
  induction parts with
  | nil => exact absurd rfl hne
  | cons x rest ih =>
    cases rest with
    | nil =>
      show splitOnChar ',' x.data = [x.data]
      exact splitOnChar_no_sep ',' x.data (h x (by simp))
    | cons y t =>
      show splitOnChar ',' ((x ++ "," ++ joinStrings "," (y :: t))).data = _
      rw [String.data_append, String.data_append]
      rw [show ("," : String).data = [','] from rfl]
      rw [List.append_assoc]
      rw [show ([','] ++ (joinStrings "," (y :: t)).data) =
            ',' :: (joinStrings "," (y :: t)).data from rfl]
      rw [splitOnChar_append_sep ',' x.data _ (h x (by simp))]
      rw [ih (by simp) (fun p hp => h p (by simp [hp]))]
      rfl

/-- The rel names recorded by a list of entries, in order. -/
def recordedKeys (parts : List String) : List String :=
  parts.filterMap (fun p => (contribEntry p.data).map Prod.fst)

/-- Assignments to distinct keys commute. -/
theorem updCursor_comm (m : Cursor) (k₁ k₂ : String) (v₁ v₂ : JsNum)
    (h : k₁ ≠ k₂) :
    updCursor (updCursor m k₁ v₁) k₂ v₂ =
      updCursor (updCursor m k₂ v₂) k₁ v₁ := by
  funext key
  unfold updCursor
  by_cases h1 : key = k₁ <;> by_cases h2 : key = k₂
  · exact absurd (h1 ▸ h2) h
  · simp [h1, h2, h]
  · simp [h1, h2, Ne.symm h]
  · simp [h1, h2]

/-- Folding the entries of a permuted list produces the same cursor when
the recorded keys are pairwise distinct. -/
theorem foldl_stepEntry_perm :
    ∀ {d₁ d₂ : List (List Char)}, d₁.Perm d₂ →
      (d₁.filterMap (fun p => (contribEntry p).map Prod.fst)).Nodup →
      ∀ m : Cursor, d₁.foldl stepEntry m = d₂.foldl stepEntry m := by
  intro d₁ d₂ hp
  induction hp with
  | nil => exact fun _ _ => rfl
  | cons x p ih =>
    intro hnd m
    simp only [List.foldl_cons]
    refine ih ?_ (stepEntry m x)
    revert hnd
    cases hx : contribEntry x with
    | none => rw [List.filterMap_cons]; simp [hx]
    | some kv =>
      rw [List.filterMap_cons]
      simp only [hx, Option.map_some]
      exact fun hnd => (List.nodup_cons.mp hnd).2
  | swap x y l =>
    intro hnd m
    simp only [List.foldl_cons]
    have hstep : stepEntry (stepEntry m y) x = stepEntry (stepEntry m x) y := by
      unfold stepEntry
      cases hx : contribEntry x with
      | none => cases hy : contribEntry y <;> rfl
      | some kvx =>
        cases hy : contribEntry y with
        | none => rfl
        | some kvy =>
          have hk : kvy.1 ≠ kvx.1 := by
            have hfm : List.filterMap (fun p => (contribEntry p).map Prod.fst)
                (y :: x :: l) =
                kvy.1 :: kvx.1 ::
                  List.filterMap (fun p => (contribEntry p).map Prod.fst) l := by
              rw [List.filterMap_cons, List.filterMap_cons]
              simp [hy, hx]
            rw [hfm] at hnd
            exact fun he =>
              (List.nodup_cons.mp hnd).1 (he ▸ List.mem_cons_self kvx.1 _)
          exact updCursor_comm m kvy.1 kvx.1 kvy.2 kvx.2 hk
    rw [hstep]
  | trans p₁ p₂ ih₁ ih₂ =>
    intro hnd m
    rw [ih₁ hnd m, ih₂ (((p₁.filterMap _).nodup_iff).mp hnd) m]

/-- C8.  Parsing is idempotent — the same header string always yields the
same cursor — and order-independent: for a valid header (comma-free
entries whose recorded rel names are pairwise distinct), permuting the
comma-separated entries yields the same cursor. -/
theorem c8_idempotent_order_independent (l₁ l₂ : List String)
    (hperm : l₁.Perm l₂)
    (hcomma : ∀ p ∈ l₁, ∀ c ∈ p.data, (c == ',') = false)
    (hkeys : (recordedKeys l₁).Nodup) :
    (∀ s : Option String, parseLinkHeader s = parseLinkHeader s) ∧
    parseLinkHeader (some (joinStrings "," l₁)) =
      parseLinkHeader (some (joinStrings "," l₂)) := by
  refine ⟨fun _ => rfl, ?_⟩
  by_cases hl : l₁ = []
  · subst hl
    rw [hperm.symm.eq_nil]
  · have hne₂ : l₂ ≠ [] := fun h => hl ((h ▸ hperm).eq_nil)
    rw [parseLinkHeader_eq_foldl, parseLinkHeader_eq_foldl]
    rw [splitOnChar_join l₁ hl hcomma,
        splitOnChar_join l₂ hne₂ (fun p hp => hcomma p (hperm.mem_iff.mpr hp))]
    refine foldl_stepEntry_perm (hperm.map String.data) ?_ emptyCursor
    rw [List.filterMap_map]
    exact hkeys

/-- The two entries of the spec's example header. -/
def entryNext2 : String := "<https://x/?page=2>; rel=\"next\""

/-- The `last` entry, with the leading space a real header carries. -/
def entryLast5 : String := " <https://x/?page=5>; rel=\"last\""

theorem c8_witness :
    parseLinkHeader (some (joinStrings "," [entryNext2, entryLast5])) =
      parseLinkHeader (some (joinStrings "," [entryLast5, entryNext2])) :=
  (c8_idempotent_order_independent [entryNext2, entryLast5] [entryLast5, entryNext2]
    (List.Perm.swap entryLast5 entryNext2 []) (by decide) (by decide)).2

/-! ## Totality of the parsers -/

/-- A malformed Link-header entry: fewer than two semicolon sections, or a
URL part on which the URL constructor throws. -/
def MalformedEntry (p : List Char) : Prop :=
  match splitOnChar ';' p with
  | s0 :: _ :: _ =>
    parseUrl ((jsTrim s0).filter (fun c => c != '<' && c != '>')) = none
  | _ => True

/-- A malformed entry contributes nothing to the cursor. -/
theorem contribEntry_of_malformed (p : List Char) (h : MalformedEntry p) :
    contribEntry p = none := by
  unfold MalformedEntry at h
  unfold contribEntry
  cases hs : splitOnChar ';' p with
  | nil => rfl
  | cons s0 rest =>
    cases rest with
    | nil => rfl
    | cons s1 t =>
      rw [hs] at h
      show (match parseUrl ((jsTrim s0).filter (fun c => c != '<' && c != '>')) with
            | none => none
            | some url =>
              match relCapture (jsTrim s1),
                (match searchGet url "page".data with
                 | none => none
                 | some [] => none
                 | some s => some (jsNumber s)) with
              | some r, some n =>
                if n.truthy = true then some (String.mk r, n) else none
              | _, _ => none) = none
      rw [h]

/-- C9.  The Link-header parsers are total and never raise: a `null` or
empty header yields the empty cursor (and no `next` page), and a malformed
entry — one that cannot be split into two sections, or whose URL makes the
URL constructor throw — is silently dropped from any position of the
header, leaving the resulting cursor exactly as if the entry were absent. -/
theorem c9_total_null_empty_malformed_dropped :
    parseLinkHeader none = emptyCursor ∧
    parseLinkHeader (some "") = emptyCursor ∧
    parseNextFromLink none = none ∧
    parseNextFromLink (some "") = none ∧
    ∀ (pre post : List String) (bad : String),
      (∀ p ∈ pre ++ bad :: post, ∀ c ∈ p.data, (c == ',') = false) →
      MalformedEntry bad.data →
      parseLinkHeader (some (joinStrings "," (pre ++ bad :: post))) =
        parseLinkHeader (some (joinStrings "," (pre ++ post))) := by
  refine ⟨rfl, rfl, rfl, rfl, ?_⟩
  intro pre post bad hcomma hbad
  rw [parseLinkHeader_eq_foldl, parseLinkHeader_eq_foldl]
  rw [splitOnChar_join _ (by simp) hcomma]
  by_cases hpp : pre ++ post = []
  · obtain ⟨hpre, hpost⟩ := List.append_eq_nil.mp hpp
    subst hpre; subst hpost
    simp only [List.nil_append, List.map_cons, List.map_nil,
      List.foldl_cons, List.foldl_nil]
    unfold stepEntry
    rw [contribEntry_of_malformed bad.data hbad]
    rfl
  · rw [splitOnChar_join _ hpp (fun p hp => hcomma p (by
      rcases List.mem_append.mp hp with h | h
      · exact List.mem_append.mpr (Or.inl h)
      · exact List.mem_append.mpr (Or.inr (List.mem_cons.mpr (Or.inr h)))))]
    rw [List.map_append, List.map_append, List.map_cons]
    rw [List.foldl_append, List.foldl_append, List.foldl_cons]
    rw [show stepEntry ((pre.map String.data).foldl stepEntry emptyCursor) bad.data =
          (pre.map String.data).foldl stepEntry emptyCursor from by
      unfold stepEntry
      rw [contribEntry_of_malformed bad.data hbad]]

/-- An entry whose URL part is not parseable. -/
def badEntry : String := "<notaurl>; rel=\"prev\""

theorem c9_witness :
    parseLinkHeader (some (joinStrings "," [entryNext2, badEntry])) =
      parseLinkHeader (some (joinStrings "," [entryNext2])) :=
  c9_total_null_empty_malformed_dropped.2.2.2.2 [entryNext2] [] badEntry
    (by decide) rfl
